import Mathlib

/-!
Shallow embedding of the resampling core of `statistics_scripts`
(`bootstrap_test.py` and `permutation_tests.py`).

Numeric observations are modelled as rationals (`ℚ`).  The process-wide
pseudo-random generator is modelled by explicit oracles passed to each
function: `np.random.choice(data, size=len(data))` becomes an oracle
`choice : Nat → List ℚ` giving the drawn values of each iteration,
`np.random.choice(inds, size=len(inds))` becomes `choice : Nat → List Nat`
giving the drawn index set of each iteration, and `np.random.permutation`
becomes a per-iteration rearrangement oracle `shuffle : Nat → List ℚ → List ℚ`.
Library guarantees about these oracles (e.g. that `np.random.choice` on
`arange(n)` only returns indices below `n`) appear as hypotheses of the
theorems.

Fallible Python operations are embedded in `Except PyErr`:
`pandas.iloc` with an out-of-range position raises `IndexError`;
`np.percentile` of an empty array raises `IndexError`; referencing the
local variable `percentiles` when neither `ci == 95` nor `ci == 99`
assigned it raises `UnboundLocalError`.
-/

/-- Python-level runtime errors that the resampling core can surface. -/
inductive PyErr : Type
  | indexError : PyErr
  | unboundLocal : String → PyErr
  deriving DecidableEq

/-- Embeds the `if ci == 95 ... elif ci == 99 ...` assignment of the local
variable `percentiles`: `none` means the variable was never assigned, so
that referencing it raises `UnboundLocalError`. -/
def ciPercentiles (ci : ℤ) : Option (List ℚ) :=
  if ci = 95 then some [2.5, 97.5]
  else if ci = 99 then some [0.5, 99.5]
  else none

/-- Linear-interpolation quantile of an already sorted list, exactly numpy's
default method: virtual index `h = q/100 * (n-1)`, result
`s[⌊h⌋] + (h - ⌊h⌋) * (s[⌈h⌉] - s[⌊h⌋])`. -/
def quantileLinear (s : List ℚ) (q : ℚ) : ℚ :=
  let h : ℚ := q / 100 * ((s.length : ℚ) - 1)
  let lo : Nat := (⌊h⌋).toNat
  let hi : Nat := (⌈h⌉).toNat
  s.getD lo 0 + (h - (⌊h⌋ : ℚ)) * (s.getD hi 0 - s.getD lo 0)

/-- Embeds `np.percentile(xs, qs)`: sorts the data and linearly interpolates
each requested percentile; on an empty array numpy raises
`IndexError: cannot do a non-empty take from an empty axes`. -/
def npPercentile (xs : List ℚ) (qs : List ℚ) : Except PyErr (List ℚ) :=
  if xs.isEmpty then .error .indexError
  else .ok (qs.map (quantileLinear (xs.insertionSort (· ≤ ·))))

/-- Embeds positional selection `series.iloc[inds]`: raises `IndexError` as
soon as a position is out of range, otherwise returns the selected values
in the order of `inds`. -/
def iloc (d : List ℚ) : List Nat → Except PyErr (List ℚ)
  | [] => .ok []
  | j :: rest =>
    match d.get? j with
    | none => .error .indexError
    | some v => do
      let vs ← iloc d rest
      .ok (v :: vs)

/-- Pure form of positional selection, used to describe the value `iloc`
returns when every position is in range. -/
def resampleAt (d : List ℚ) (inds : List Nat) : List ℚ :=
  inds.map fun j => d.getD j 0

/-- Guarantee of `np.random.choice(np.arange(n), size=n)` for the index
oracle: in each of the first `B` iterations it yields `n` indices, all
below `n`. -/
def validChoice (n : Nat) (choice : Nat → List Nat) (B : Nat) : Prop :=
  ∀ i < B, (choice i).length = n ∧ ∀ j ∈ choice i, j < n

/-- Embeds `bootstrap(data, func, iterations, ci)` from `bootstrap_test.py`:
each iteration applies `func` to `np.random.choice(data, size=len(data))`
(the value oracle `choice`); afterwards the percentile pair selected by
`ci` is taken over the replicates (referencing the unassigned local
`percentiles` when `ci` is unsupported). -/
def bootstrap (data : List ℚ) (func : List ℚ → ℚ) (iterations : Nat) (ci : ℤ)
    (choice : Nat → List ℚ) : Except PyErr (List ℚ × List ℚ) :=
  let _ := data
  let bs_replicates := (List.range iterations).map fun i => func (choice i)
  match ciPercentiles ci with
  | none => .error (.unboundLocal "percentiles")
  | some ps => do
    let confidence_intervals ← npPercentile bs_replicates ps
    .ok (bs_replicates, confidence_intervals)

/-- Embeds `bootstrap_pairs(data_1, data_2, func, iterations, ci)`: each
iteration draws one index set `bs_inds` from `arange(len(data_1))` (the
oracle `choice`), selects it from both series with `iloc`, applies `func`
and keeps the first component of the returned pair. -/
def bootstrap_pairs (data_1 data_2 : List ℚ) (func : List ℚ → List ℚ → ℚ × ℚ)
    (iterations : Nat) (ci : ℤ) (choice : Nat → List Nat) :
    Except PyErr (List ℚ × List ℚ) := do
  let bs_replicates ← (List.range iterations).mapM fun i => do
    let bs_inds := choice i
    let bs_x ← iloc data_1 bs_inds
    let bs_y ← iloc data_2 bs_inds
    pure (func bs_x bs_y).1
  match ciPercentiles ci with
  | none => .error (.unboundLocal "percentiles")
  | some ps => do
    let confidence_intervals ← npPercentile bs_replicates ps
    pure (bs_replicates, confidence_intervals)

/-- Embeds `boostrap_pairs_lin_reg(data_1, data_2, func, iterations, ci)`:
like `bootstrap_pairs` but both components of each `func` result are kept,
filling two parallel replicate arrays, and the percentile interval is
taken over the slope replicates only. -/
def boostrap_pairs_lin_reg (data_1 data_2 : List ℚ)
    (func : List ℚ → List ℚ → ℚ × ℚ) (iterations : Nat) (ci : ℤ)
    (choice : Nat → List Nat) :
    Except PyErr (List ℚ × List ℚ × List ℚ) := do
  let reps ← (List.range iterations).mapM fun i => do
    let bs_inds := choice i
    let bs_x ← iloc data_1 bs_inds
    let bs_y ← iloc data_2 bs_inds
    pure (func bs_x bs_y)
  let bs_slope_reps := reps.map Prod.fst
  let bs_intercept_reps := reps.map Prod.snd
  match ciPercentiles ci with
  | none => .error (.unboundLocal "percentiles")
  | some ps => do
    let confidence_intervals ← npPercentile bs_slope_reps ps
    pure (bs_slope_reps, bs_intercept_reps, confidence_intervals)

/-- Embeds the nested helper `permutation_sample(data_1, data_2)` of
`permutation_tests.py`: concatenate the two data sets, permute the pooled
array with `np.random.permutation` (the oracle `shuffle`), and split the
result at `len(data_1)`. -/
def permutation_sample (data_1 data_2 : List ℚ)
    (shuffle : List ℚ → List ℚ) : List ℚ × List ℚ :=
  let data := data_1 ++ data_2
  let permuted_data := shuffle data
  (permuted_data.take data_1.length, permuted_data.drop data_1.length)

/-- Embeds `draw_perm_reps_spearman(data_1, data_2, func, iterations, ci)`:
the empirical statistic is computed once from the two inputs, each
iteration stores the first component of `func` applied to a fresh
permutation sample, the percentile pair selected by `ci` is taken over
the replicates, and the p-value is
`np.sum(perm_replicates >= empirical_r) / len(perm_replicates)`. -/
def draw_perm_reps_spearman (data_1 data_2 : List ℚ)
    (func : List ℚ → List ℚ → ℚ × ℚ) (iterations : Nat) (ci : ℤ)
    (shuffle : Nat → List ℚ → List ℚ) :
    Except PyErr (List ℚ × ℚ × List ℚ) :=
  let empirical_r := (func data_1 data_2).1
  let perm_replicates := (List.range iterations).map fun i =>
    (func (permutation_sample data_1 data_2 (shuffle i)).1
          (permutation_sample data_1 data_2 (shuffle i)).2).1
  match ciPercentiles ci with
  | none => .error (.unboundLocal "percentiles")
  | some ps => do
    let confidence_intervals ← npPercentile perm_replicates ps
    let p_value : ℚ :=
      ((perm_replicates.countP fun r => decide (empirical_r ≤ r)) : ℚ) /
        (perm_replicates.length : ℚ)
    pure (perm_replicates, p_value, confidence_intervals)

/-- Reference single-sample bootstrap, written from the words of the spec
for the refinement claim: each iteration draws `N` indices uniformly at
random with replacement from `[0, N)` (the index oracle `idx`), forms the
resample by selecting those indices from the Sample, and applies the
Statistic Function to the resample; percentile extraction is unchanged. -/
def bootstrapIndexRef (data : List ℚ) (func : List ℚ → ℚ) (iterations : Nat)
    (ci : ℤ) (idx : Nat → List Nat) : Except PyErr (List ℚ × List ℚ) :=
  let bs_replicates :=
    (List.range iterations).map fun i => func (resampleAt data (idx i))
  match ciPercentiles ci with
  | none => .error (.unboundLocal "percentiles")
  | some ps => do
    let confidence_intervals ← npPercentile bs_replicates ps
    .ok (bs_replicates, confidence_intervals)

/-- Replicates produced by the permutation loop of `draw_perm_reps_spearman`,
named for reuse in the theorems below. -/
def permReps (data_1 data_2 : List ℚ) (func : List ℚ → List ℚ → ℚ × ℚ)
    (B : Nat) (shuffle : Nat → List ℚ → List ℚ) : List ℚ :=
  (List.range B).map fun i =>
    (func (permutation_sample data_1 data_2 (shuffle i)).1
          (permutation_sample data_1 data_2 (shuffle i)).2).1

lemma get_opt_eq_some_getD {α : Type} {d : α} {l : List α} {n : Nat}
    (h : n < l.length) : l.get? n = some (l.getD n d) := by
  rw [List.getD_eq_get? ]
  cases hx : l.get? n with
  | none => rw [List.get?_eq_none] at hx; omega
  | some v => rfl

lemma mapM_ok {α β : Type} (l : List α) (F : α → Except PyErr β) (g : α → β)
    (h : ∀ a ∈ l, F a = .ok (g a)) : l.mapM F = .ok (l.map g) := by
  induction l with
  | nil => rfl
  | cons a t ih =>
    simp only [List.mapM_cons, List.map_cons]
    rw [h a (List.mem_cons_self a t), ih fun b hb => h b (List.mem_cons_of_mem _ hb)]
    rfl

lemma iloc_ok (d : List ℚ) (inds : List Nat) (h : ∀ j ∈ inds, j < d.length) :
    iloc d inds = .ok (resampleAt d inds) := by
  induction inds with
  | nil => rfl
  | cons j rest ih =>
    have hj : j < d.length := h j (List.mem_cons_self j rest)
    unfold iloc
    rw [get_opt_eq_some_getD hj, ih fun b hb => h b (List.mem_cons_of_mem _ hb)]
    rfl

lemma npPercentile_ok (xs : List ℚ) (ps : List ℚ) (h : xs ≠ []) :
    npPercentile xs ps = .ok (ps.map (quantileLinear (xs.insertionSort (· ≤ ·)))) := by
  unfold npPercentile
  rw [if_neg]
  simp [List.isEmpty_iff, h]

lemma permReps_length (data_1 data_2 : List ℚ) (func : List ℚ → List ℚ → ℚ × ℚ)
    (B : Nat) (shuffle : Nat → List ℚ → List ℚ) :
    (permReps data_1 data_2 func B shuffle).length = B := by
  simp [permReps]

lemma draw_perm_eq_ok (data_1 data_2 : List ℚ) (func : List ℚ → List ℚ → ℚ × ℚ)
    (B : Nat) (ci : ℤ) (shuffle : Nat → List ℚ → List ℚ) (ps : List ℚ)
    (hB : 1 ≤ B) (hps : ciPercentiles ci = some ps) :
    draw_perm_reps_spearman data_1 data_2 func B ci shuffle =
      .ok (permReps data_1 data_2 func B shuffle,
        (((permReps data_1 data_2 func B shuffle).countP
            fun r => decide ((func data_1 data_2).1 ≤ r)) : ℚ) / (B : ℚ),
        ps.map (quantileLinear
          ((permReps data_1 data_2 func B shuffle).insertionSort (· ≤ ·)))) := by
  have hne : permReps data_1 data_2 func B shuffle ≠ [] := by
    intro hcon
    have := permReps_length data_1 data_2 func B shuffle
    rw [hcon] at this
    simp at this
    omega
  have hre : (List.range B).map (fun i =>
      (func (permutation_sample data_1 data_2 (shuffle i)).1
            (permutation_sample data_1 data_2 (shuffle i)).2).1) =
      permReps data_1 data_2 func B shuffle := rfl
  simp only [draw_perm_reps_spearman, hps, hre, npPercentile_ok _ _ hne,
    permReps_length]
  rfl

/-- Value of iteration `i` of the paired resampling loop: `func` applied to
the selections of the same index set `choice i` from both series. -/
def pairRep (d1 d2 : List ℚ) (f : List ℚ → List ℚ → ℚ × ℚ)
    (choice : Nat → List Nat) (i : Nat) : ℚ × ℚ :=
  f (resampleAt d1 (choice i)) (resampleAt d2 (choice i))

lemma map_range_ne_nil {g : Nat → ℚ} {B : Nat} (hB : 1 ≤ B) :
    (List.range B).map g ≠ [] := by
  intro h
  have hl := congrArg List.length h
  simp at hl
  omega

lemma get_opt_map_range {g : Nat → ℚ} {B i : Nat} (h : i < B) :
    ((List.range B).map g).get? i = some (g i) := by
  rw [List.get?_map, List.get?_range h]
  rfl

lemma ok_bind {α β : Type} (a : α) (k : α → Except PyErr β) :
    (Except.ok a >>= k : Except PyErr β) = k a := rfl

lemma bootstrap_eq_ok (data : List ℚ) (func : List ℚ → ℚ) (B : Nat) (ci : ℤ)
    (choice : Nat → List ℚ) (ps : List ℚ)
    (hB : 1 ≤ B) (hps : ciPercentiles ci = some ps) :
    bootstrap data func B ci choice =
      .ok ((List.range B).map fun i => func (choice i),
        ps.map (quantileLinear
          (((List.range B).map fun i => func (choice i)).insertionSort (· ≤ ·)))) := by
  simp only [bootstrap, hps, npPercentile_ok _ _ (map_range_ne_nil hB)]
  rfl

lemma pairs_loop_ok (d1 d2 : List ℚ) (f : List ℚ → List ℚ → ℚ × ℚ)
    (B : Nat) (choice : Nat → List Nat)
    (h1 : ∀ i < B, ∀ j ∈ choice i, j < d1.length)
    (h2 : ∀ i < B, ∀ j ∈ choice i, j < d2.length) :
    ((List.range B).mapM (fun i => do
        let bs_inds := choice i
        let bs_x ← iloc d1 bs_inds
        let bs_y ← iloc d2 bs_inds
        pure (f bs_x bs_y)) : Except PyErr (List (ℚ × ℚ))) =
      .ok ((List.range B).map (pairRep d1 d2 f choice)) := by
  apply mapM_ok
  intro i hi
  have hi' : i < B := List.mem_range.mp hi
  show (do
      let bs_x ← iloc d1 (choice i)
      let bs_y ← iloc d2 (choice i)
      pure (f bs_x bs_y) : Except PyErr (ℚ × ℚ)) = _
  rw [iloc_ok d1 (choice i) (h1 i hi'), iloc_ok d2 (choice i) (h2 i hi')]
  rfl

lemma pairs_loop_fst_ok (d1 d2 : List ℚ) (f : List ℚ → List ℚ → ℚ × ℚ)
    (B : Nat) (choice : Nat → List Nat)
    (h1 : ∀ i < B, ∀ j ∈ choice i, j < d1.length)
    (h2 : ∀ i < B, ∀ j ∈ choice i, j < d2.length) :
    ((List.range B).mapM (fun i => do
        let bs_inds := choice i
        let bs_x ← iloc d1 bs_inds
        let bs_y ← iloc d2 bs_inds
        pure (f bs_x bs_y).1) : Except PyErr (List ℚ)) =
      .ok ((List.range B).map fun i => (pairRep d1 d2 f choice i).1) := by
  apply mapM_ok
  intro i hi
  have hi' : i < B := List.mem_range.mp hi
  show (do
      let bs_x ← iloc d1 (choice i)
      let bs_y ← iloc d2 (choice i)
      pure (f bs_x bs_y).1 : Except PyErr ℚ) = _
  rw [iloc_ok d1 (choice i) (h1 i hi'), iloc_ok d2 (choice i) (h2 i hi')]
  rfl

lemma bootstrap_pairs_eq_ok (d1 d2 : List ℚ) (f : List ℚ → List ℚ → ℚ × ℚ)
    (B : Nat) (ci : ℤ) (choice : Nat → List Nat) (ps : List ℚ)
    (hB : 1 ≤ B) (hps : ciPercentiles ci = some ps)
    (h1 : ∀ i < B, ∀ j ∈ choice i, j < d1.length)
    (h2 : ∀ i < B, ∀ j ∈ choice i, j < d2.length) :
    bootstrap_pairs d1 d2 f B ci choice =
      .ok ((List.range B).map fun i => (pairRep d1 d2 f choice i).1,
        ps.map (quantileLinear
          (((List.range B).map fun i => (pairRep d1 d2 f choice i).1).insertionSort
            (· ≤ ·)))) := by
  simp only [bootstrap_pairs, pairs_loop_fst_ok d1 d2 f B choice h1 h2, ok_bind, hps,
    npPercentile_ok _ _ (map_range_ne_nil hB)]
  rfl

lemma lin_reg_eq_ok (d1 d2 : List ℚ) (f : List ℚ → List ℚ → ℚ × ℚ)
    (B : Nat) (ci : ℤ) (choice : Nat → List Nat) (ps : List ℚ)
    (hB : 1 ≤ B) (hps : ciPercentiles ci = some ps)
    (h1 : ∀ i < B, ∀ j ∈ choice i, j < d1.length)
    (h2 : ∀ i < B, ∀ j ∈ choice i, j < d2.length) :
    boostrap_pairs_lin_reg d1 d2 f B ci choice =
      .ok ((List.range B).map fun i => (pairRep d1 d2 f choice i).1,
        (List.range B).map fun i => (pairRep d1 d2 f choice i).2,
        ps.map (quantileLinear
          (((List.range B).map fun i => (pairRep d1 d2 f choice i).1).insertionSort
            (· ≤ ·)))) := by
  have hmap1 : ((List.range B).map (pairRep d1 d2 f choice)).map Prod.fst =
      (List.range B).map fun i => (pairRep d1 d2 f choice i).1 := by
    rw [List.map_map]
    rfl
  have hmap2 : ((List.range B).map (pairRep d1 d2 f choice)).map Prod.snd =
      (List.range B).map fun i => (pairRep d1 d2 f choice i).2 := by
    rw [List.map_map]
    rfl
  simp only [boostrap_pairs_lin_reg, pairs_loop_ok d1 d2 f B choice h1 h2, ok_bind,
    hmap1, hmap2, hps, npPercentile_ok _ _ (map_range_ne_nil hB)]
  rfl

/-- Claim C1: for every pair of samples, every two-sample statistic
function, every iteration count `B ≥ 1` and every supported confidence
level, `draw_perm_reps_spearman` returns a one-sided empirical p-value
equal to the number of replicate values greater than or equal to the
empirical statistic (the statistic function applied directly to the two
input samples) divided by `B`; consequently this p-value lies in `[0, 1]`. -/
theorem perm_pvalue_count_over_B (data_1 data_2 : List ℚ)
    (func : List ℚ → List ℚ → ℚ × ℚ) (B : Nat) (ci : ℤ)
    (shuffle : Nat → List ℚ → List ℚ)
    (hB : 1 ≤ B) (hci : ci = 95 ∨ ci = 99) :
    ∃ reps intervals,
      draw_perm_reps_spearman data_1 data_2 func B ci shuffle =
        .ok (reps,
          ((reps.countP fun r => decide ((func data_1 data_2).1 ≤ r)) : ℚ) / (B : ℚ),
          intervals) ∧
      reps.length = B ∧
      0 ≤ ((reps.countP fun r => decide ((func data_1 data_2).1 ≤ r)) : ℚ) / (B : ℚ) ∧
      ((reps.countP fun r => decide ((func data_1 data_2).1 ≤ r)) : ℚ) / (B : ℚ) ≤ 1 := by
  obtain ⟨ps, hps⟩ : ∃ ps, ciPercentiles ci = some ps := by
    rcases hci with h | h <;> subst h <;> exact ⟨_, rfl⟩
  refine ⟨permReps data_1 data_2 func B shuffle, _,
    draw_perm_eq_ok data_1 data_2 func B ci shuffle ps hB hps,
    permReps_length data_1 data_2 func B shuffle, ?_, ?_⟩
  · positivity
  · have hBpos : (0 : ℚ) < (B : ℚ) := by exact_mod_cast hB
    rw [div_le_one hBpos]
    have hcount : (permReps data_1 data_2 func B shuffle).countP
        (fun r => decide ((func data_1 data_2).1 ≤ r)) ≤ B := by
      calc (permReps data_1 data_2 func B shuffle).countP
            (fun r => decide ((func data_1 data_2).1 ≤ r)) ≤
          (permReps data_1 data_2 func B shuffle).length := List.countP_le_length _
        _ = B := permReps_length data_1 data_2 func B shuffle
    exact_mod_cast hcount

/-- Witness for the claim C1 theorem at concrete inputs. -/
theorem perm_pvalue_count_over_B_witness :
    1 ≤ 1 ∧ ((95 : ℤ) = 95 ∨ (95 : ℤ) = 99) ∧
    (∃ reps intervals,
      draw_perm_reps_spearman [1] [2] (fun _ _ => (0, 0)) 1 95 (fun _ l => l) =
        .ok (reps,
          ((reps.countP fun r => decide ((0 : ℚ) ≤ r)) : ℚ) / ((1 : Nat) : ℚ),
          intervals) ∧
      reps.length = 1 ∧
      0 ≤ ((reps.countP fun r => decide ((0 : ℚ) ≤ r)) : ℚ) / ((1 : Nat) : ℚ) ∧
      ((reps.countP fun r => decide ((0 : ℚ) ≤ r)) : ℚ) / ((1 : Nat) : ℚ) ≤ 1) :=
  ⟨le_refl 1, Or.inl rfl,
    perm_pvalue_count_over_B [1] [2] (fun _ _ => (0, 0)) 1 95 (fun _ l => l)
      (le_refl 1) (Or.inl rfl)⟩

/-- Claim C3: in every iteration of `draw_perm_reps_spearman`, the
permutation sample concatenates the two inputs into one pooled collection,
applies the random rearrangement delivered by `np.random.permutation`, and
splits the result into parts of lengths `len(data_1)` and `len(data_2)`;
the two parts together are a permutation (multiset-equal rearrangement) of
the pooled input, so the pooled marginal distribution is preserved. -/
theorem permutation_sample_preserves_pool (data_1 data_2 : List ℚ)
    (shuffle : Nat → List ℚ → List ℚ)
    (hperm : ∀ i, (shuffle i (data_1 ++ data_2)).Perm (data_1 ++ data_2)) :
    ∀ i,
      (permutation_sample data_1 data_2 (shuffle i)).1.length = data_1.length ∧
      (permutation_sample data_1 data_2 (shuffle i)).2.length = data_2.length ∧
      ((permutation_sample data_1 data_2 (shuffle i)).1 ++
        (permutation_sample data_1 data_2 (shuffle i)).2).Perm
        (data_1 ++ data_2) := by
  intro i
  have hlen : (shuffle i (data_1 ++ data_2)).length =
      data_1.length + data_2.length := by
    rw [(hperm i).length_eq, List.length_append]
  unfold permutation_sample
  refine ⟨?_, ?_, ?_⟩
  · rw [List.length_take, hlen]
    omega
  · rw [List.length_drop, hlen]
    omega
  · rw [List.take_append_drop]
    exact hperm i

/-- Witness for the claim C3 theorem at concrete inputs. -/
theorem permutation_sample_preserves_pool_witness :
    (∀ _i : Nat, (List.reverse ([1, 2] ++ [3]) : List ℚ).Perm ([1, 2] ++ [3])) ∧
    (∀ _i : Nat,
      (permutation_sample [1, 2] [3] List.reverse).1.length =
        ([1, 2] : List ℚ).length ∧
      (permutation_sample [1, 2] [3] List.reverse).2.length =
        ([3] : List ℚ).length ∧
      ((permutation_sample [1, 2] [3] List.reverse).1 ++
        (permutation_sample [1, 2] [3] List.reverse).2).Perm
        (([1, 2] : List ℚ) ++ [3])) :=
  ⟨fun _ => List.reverse_perm _,
    permutation_sample_preserves_pool [1, 2] [3] (fun _ l => l.reverse)
      (fun _ => List.reverse_perm _)⟩

/-- Claim C4: for every valid call (non-empty samples, equal-length paired
samples, iteration count `B ≥ 1`, confidence level in `{95, 99}`) to
`bootstrap`, `bootstrap_pairs`, `boostrap_pairs_lin_reg` or
`draw_perm_reps_spearman`, every returned replicate collection has length
exactly `B`, and the replicate at position `i` is the value produced by the
`i`-th resampling iteration. -/
theorem replicate_collections_length_B
    (data d1 d2 q1 q2 : List ℚ) (f1 : List ℚ → ℚ)
    (f2 f3 f4 : List ℚ → List ℚ → ℚ × ℚ)
    (B : Nat) (ci : ℤ) (choiceV : Nat → List ℚ) (choice : Nat → List Nat)
    (shuffle : Nat → List ℚ → List ℚ)
    (hdata : data ≠ []) (hd1 : d1 ≠ []) (hq1 : q1 ≠ []) (hq2 : q2 ≠ [])
    (hlen : d2.length = d1.length) (hch : validChoice d1.length choice B)
    (hB : 1 ≤ B) (hci : ci = 95 ∨ ci = 99) :
    (∃ reps iv, bootstrap data f1 B ci choiceV = .ok (reps, iv) ∧
      reps.length = B ∧ ∀ i < B, reps.get? i = some (f1 (choiceV i))) ∧
    (∃ reps iv, bootstrap_pairs d1 d2 f2 B ci choice = .ok (reps, iv) ∧
      reps.length = B ∧
      ∀ i < B, reps.get? i = some (pairRep d1 d2 f2 choice i).1) ∧
    (∃ slopes intercepts iv,
      boostrap_pairs_lin_reg d1 d2 f3 B ci choice =
        .ok (slopes, intercepts, iv) ∧
      slopes.length = B ∧ intercepts.length = B ∧
      (∀ i < B, slopes.get? i = some (pairRep d1 d2 f3 choice i).1 ∧
        intercepts.get? i = some (pairRep d1 d2 f3 choice i).2)) ∧
    (∃ reps pv iv,
      draw_perm_reps_spearman q1 q2 f4 B ci shuffle = .ok (reps, pv, iv) ∧
      reps.length = B ∧
      ∀ i < B, reps.get? i =
        some (f4 (permutation_sample q1 q2 (shuffle i)).1
                 (permutation_sample q1 q2 (shuffle i)).2).1) := by
  obtain ⟨ps, hps⟩ : ∃ ps, ciPercentiles ci = some ps := by
    rcases hci with h | h <;> subst h <;> exact ⟨_, rfl⟩
  have h1 : ∀ i < B, ∀ j ∈ choice i, j < d1.length := fun i hi => (hch i hi).2
  have h2 : ∀ i < B, ∀ j ∈ choice i, j < d2.length := by
    intro i hi j hj
    rw [hlen]
    exact (hch i hi).2 j hj
  refine ⟨⟨_, _, bootstrap_eq_ok data f1 B ci choiceV ps hB hps, by simp, ?_⟩,
    ⟨_, _, bootstrap_pairs_eq_ok d1 d2 f2 B ci choice ps hB hps h1 h2, by simp, ?_⟩,
    ⟨_, _, _, lin_reg_eq_ok d1 d2 f3 B ci choice ps hB hps h1 h2,
      by simp, by simp, ?_⟩,
    ⟨_, _, _, draw_perm_eq_ok q1 q2 f4 B ci shuffle ps hB hps,
      permReps_length q1 q2 f4 B shuffle, ?_⟩⟩
  · intro i hi
    exact get_opt_map_range hi
  · intro i hi
    exact get_opt_map_range hi
  · intro i hi
    exact ⟨get_opt_map_range hi, get_opt_map_range hi⟩
  · intro i hi
    exact get_opt_map_range hi

/-- Witness for the claim C4 theorem at concrete inputs. -/
theorem replicate_collections_length_B_witness :
    ([1] : List ℚ) ≠ [] ∧ ([2] : List ℚ) ≠ [] ∧
    ([2] : List ℚ).length = ([1] : List ℚ).length ∧
    validChoice ([1] : List ℚ).length (fun _ => [0]) 1 ∧
    1 ≤ 1 ∧ ((95 : ℤ) = 95 ∨ (95 : ℤ) = 99) ∧
    ((∃ reps iv, bootstrap [1] (fun _ => 0) 1 95 (fun _ => [1]) = .ok (reps, iv) ∧
      reps.length = 1 ∧ ∀ i < 1, reps.get? i = some (0 : ℚ)) ∧
    (∃ reps iv,
      bootstrap_pairs [1] [2] (fun _ _ => (0, 0)) 1 95 (fun _ => [0]) =
        .ok (reps, iv) ∧
      reps.length = 1 ∧ ∀ i < 1, reps.get? i = some (0 : ℚ)) ∧
    (∃ slopes intercepts iv,
      boostrap_pairs_lin_reg [1] [2] (fun _ _ => (0, 0)) 1 95 (fun _ => [0]) =
        .ok (slopes, intercepts, iv) ∧
      slopes.length = 1 ∧ intercepts.length = 1 ∧
      (∀ i < 1, slopes.get? i = some (0 : ℚ) ∧
        intercepts.get? i = some (0 : ℚ))) ∧
    (∃ reps pv iv,
      draw_perm_reps_spearman [1] [2] (fun _ _ => (0, 0)) 1 95 (fun _ l => l) =
        .ok (reps, pv, iv) ∧
      reps.length = 1 ∧ ∀ i < 1, reps.get? i = some (0 : ℚ))) :=
  ⟨List.cons_ne_nil _ _, List.cons_ne_nil _ _, rfl,
    fun _ _ => ⟨rfl, by
      show ∀ j ∈ ([0] : List Nat), j < ([1] : List ℚ).length
      decide⟩, le_refl 1, Or.inl rfl,
    replicate_collections_length_B [1] [1] [2] [1] [2] (fun _ => 0)
      (fun _ _ => (0, 0)) (fun _ _ => (0, 0)) (fun _ _ => (0, 0)) 1 95
      (fun _ => [1]) (fun _ => [0]) (fun _ l => l)
      (List.cons_ne_nil _ _) (List.cons_ne_nil _ _) (List.cons_ne_nil _ _)
      (List.cons_ne_nil _ _) rfl (fun _ _ => ⟨rfl, by
      show ∀ j ∈ ([0] : List Nat), j < ([1] : List ℚ).length
      decide⟩)
      (le_refl 1) (Or.inl rfl)⟩

/-- Claim C2: in every iteration of `bootstrap_pairs` and
`boostrap_pairs_lin_reg` a single random index set `choice i` is drawn and
that same index set selects elements from both `data_1` and `data_2`: the
replicate of iteration `i` applies `func` to the selections of `choice i`
from both series, and position `j` of the first resample holds
`data_1[(choice i)_j]` while position `j` of the second resample holds
`data_2[(choice i)_j]` — pairing is preserved, the two samples are never
resampled with independent index sets. -/
theorem paired_resampling_uses_same_index_set
    (d1 d2 : List ℚ) (f g : List ℚ → List ℚ → ℚ × ℚ) (B : Nat) (ci : ℤ)
    (choice : Nat → List Nat)
    (hlen : d2.length = d1.length) (hch : validChoice d1.length choice B)
    (hB : 1 ≤ B) (hci : ci = 95 ∨ ci = 99) :
    (∃ iv, bootstrap_pairs d1 d2 f B ci choice =
      .ok ((List.range B).map fun i =>
        (f (resampleAt d1 (choice i)) (resampleAt d2 (choice i))).1, iv)) ∧
    (∃ iv, boostrap_pairs_lin_reg d1 d2 g B ci choice =
      .ok ((List.range B).map (fun i =>
          (g (resampleAt d1 (choice i)) (resampleAt d2 (choice i))).1),
        (List.range B).map (fun i =>
          (g (resampleAt d1 (choice i)) (resampleAt d2 (choice i))).2), iv)) ∧
    (∀ i j, j < (choice i).length →
      (resampleAt d1 (choice i)).get? j =
        some (d1.getD ((choice i).getD j 0) 0) ∧
      (resampleAt d2 (choice i)).get? j =
        some (d2.getD ((choice i).getD j 0) 0)) := by
  obtain ⟨ps, hps⟩ : ∃ ps, ciPercentiles ci = some ps := by
    rcases hci with h | h <;> subst h <;> exact ⟨_, rfl⟩
  have h1 : ∀ i < B, ∀ j ∈ choice i, j < d1.length := fun i hi => (hch i hi).2
  have h2 : ∀ i < B, ∀ j ∈ choice i, j < d2.length := by
    intro i hi j hj
    rw [hlen]
    exact (hch i hi).2 j hj
  refine ⟨⟨_, bootstrap_pairs_eq_ok d1 d2 f B ci choice ps hB hps h1 h2⟩,
    ⟨_, lin_reg_eq_ok d1 d2 g B ci choice ps hB hps h1 h2⟩, ?_⟩
  intro i j hj
  have hc : (choice i).get? j = some ((choice i).getD j 0) :=
    get_opt_eq_some_getD hj
  constructor
  · show ((choice i).map fun k => d1.getD k 0).get? j = _
    rw [List.get?_map, hc]
    rfl
  · show ((choice i).map fun k => d2.getD k 0).get? j = _
    rw [List.get?_map, hc]
    rfl

/-- Witness for the claim C2 theorem at concrete inputs. -/
theorem paired_resampling_uses_same_index_set_witness :
    ([3, 4] : List ℚ).length = ([1, 2] : List ℚ).length ∧
    validChoice ([1, 2] : List ℚ).length (fun _ => [1, 0]) 1 ∧
    1 ≤ 1 ∧ ((95 : ℤ) = 95 ∨ (95 : ℤ) = 99) ∧
    ((∃ iv, bootstrap_pairs [1, 2] [3, 4] (fun _ _ => (0, 0)) 1 95
        (fun _ => [1, 0]) =
      .ok ((List.range 1).map fun _ => (0 : ℚ), iv)) ∧
    (∃ iv, boostrap_pairs_lin_reg [1, 2] [3, 4] (fun _ _ => (0, 0)) 1 95
        (fun _ => [1, 0]) =
      .ok ((List.range 1).map (fun _ => (0 : ℚ)),
        (List.range 1).map (fun _ => (0 : ℚ)), iv)) ∧
    (∀ (_i j : Nat), j < (([1, 0] : List Nat)).length →
      (resampleAt [1, 2] [1, 0]).get? j =
        some (([1, 2] : List ℚ).getD (([1, 0] : List Nat).getD j 0) 0) ∧
      (resampleAt [3, 4] [1, 0]).get? j =
        some (([3, 4] : List ℚ).getD (([1, 0] : List Nat).getD j 0) 0))) :=
  ⟨rfl,
    fun _ _ => ⟨rfl, by
      show ∀ j ∈ ([1, 0] : List Nat), j < ([1, 2] : List ℚ).length
      decide⟩,
    le_refl 1, Or.inl rfl,
    paired_resampling_uses_same_index_set [1, 2] [3, 4] (fun _ _ => (0, 0))
      (fun _ _ => (0, 0)) 1 95 (fun _ => [1, 0]) rfl
      (fun _ _ => ⟨rfl, by
        show ∀ j ∈ ([1, 0] : List Nat), j < ([1, 2] : List ℚ).length
        decide⟩)
      (le_refl 1) (Or.inl rfl)⟩

/-- Claim C5: for every valid call to `boostrap_pairs_lin_reg`, both
components of the statistic function's (slope, intercept) result are
retained: the slope and intercept of iteration `i` are stored at index `i`
of two parallel replicate collections, aligned by iteration index, and the
returned interval is computed only over the slope collection (the
percentiles are taken of the slope replicates, never the intercepts). -/
theorem lin_reg_parallel_replicates (d1 d2 : List ℚ)
    (f : List ℚ → List ℚ → ℚ × ℚ) (B : Nat) (ci : ℤ) (choice : Nat → List Nat)
    (hlen : d2.length = d1.length) (hch : validChoice d1.length choice B)
    (hB : 1 ≤ B) (hci : ci = 95 ∨ ci = 99) :
    ∃ slopes intercepts iv,
      boostrap_pairs_lin_reg d1 d2 f B ci choice =
        .ok (slopes, intercepts, iv) ∧
      slopes.length = B ∧ intercepts.length = B ∧
      (∀ i < B, slopes.get? i = some (pairRep d1 d2 f choice i).1 ∧
        intercepts.get? i = some (pairRep d1 d2 f choice i).2) ∧
      (∃ ps, ciPercentiles ci = some ps ∧ npPercentile slopes ps = .ok iv) := by
  obtain ⟨ps, hps⟩ : ∃ ps, ciPercentiles ci = some ps := by
    rcases hci with h | h <;> subst h <;> exact ⟨_, rfl⟩
  have h1 : ∀ i < B, ∀ j ∈ choice i, j < d1.length := fun i hi => (hch i hi).2
  have h2 : ∀ i < B, ∀ j ∈ choice i, j < d2.length := by
    intro i hi j hj
    rw [hlen]
    exact (hch i hi).2 j hj
  refine ⟨_, _, _, lin_reg_eq_ok d1 d2 f B ci choice ps hB hps h1 h2,
    by simp, by simp, ?_, ps, hps,
    npPercentile_ok _ _ (map_range_ne_nil hB)⟩
  intro i hi
  exact ⟨get_opt_map_range hi, get_opt_map_range hi⟩

/-- Witness for the claim C5 theorem at concrete inputs. -/
theorem lin_reg_parallel_replicates_witness :
    ([3, 4] : List ℚ).length = ([1, 2] : List ℚ).length ∧
    validChoice ([1, 2] : List ℚ).length (fun _ => [0, 1]) 1 ∧
    1 ≤ 1 ∧ ((95 : ℤ) = 95 ∨ (95 : ℤ) = 99) ∧
    (∃ slopes intercepts iv,
      boostrap_pairs_lin_reg [1, 2] [3, 4] (fun _ _ => (2, 5)) 1 95
          (fun _ => [0, 1]) =
        .ok (slopes, intercepts, iv) ∧
      slopes.length = 1 ∧ intercepts.length = 1 ∧
      (∀ i < 1, slopes.get? i = some (2 : ℚ) ∧
        intercepts.get? i = some (5 : ℚ)) ∧
      (∃ ps, ciPercentiles 95 = some ps ∧ npPercentile slopes ps = .ok iv)) :=
  ⟨rfl,
    fun _ _ => ⟨rfl, by
      show ∀ j ∈ ([0, 1] : List Nat), j < ([1, 2] : List ℚ).length
      decide⟩,
    le_refl 1, Or.inl rfl,
    lin_reg_parallel_replicates [1, 2] [3, 4] (fun _ _ => (2, 5)) 1 95
      (fun _ => [0, 1]) rfl
      (fun _ _ => ⟨rfl, by
        show ∀ j ∈ ([0, 1] : List Nat), j < ([1, 2] : List ℚ).length
        decide⟩)
      (le_refl 1) (Or.inl rfl)⟩

lemma resampleAt_map_indexOf (data l : List ℚ) (h : ∀ v ∈ l, v ∈ data) :
    resampleAt data (l.map data.indexOf) = l := by
  unfold resampleAt
  rw [List.map_map]
  have hid : ∀ v ∈ l, data.getD (data.indexOf v) 0 = v := by
    intro v hv
    rw [List.getD_eq_get?, List.indexOf_get? (h v hv)]
    rfl
  calc l.map ((fun j => data.getD j 0) ∘ data.indexOf) =
      l.map id := List.map_congr_left fun v hv => hid v hv
    _ = l := List.map_id l

/-- Claim C6: for every sample, statistic function and `B ≥ 1`, the
implementation's direct uniform draw of `N` values with replacement from
the sample (`np.random.choice(data, size=len(data))`) is equivalent to the
spec's index-based reference procedure: for every fixed choice of
randomness whose draws come from the sample there is an index sequence
into `[0, N)` yielding the identical resample in every iteration, and
hence an identical output of `bootstrap` and `bootstrapIndexRef`. -/
theorem bootstrap_value_draw_refines_index_draw
    (data : List ℚ) (func : List ℚ → ℚ) (B : Nat) (ci : ℤ)
    (choice : Nat → List ℚ)
    (hch : ∀ i < B, (choice i).length = data.length ∧
      ∀ x ∈ choice i, x ∈ data) :
    ∃ idx : Nat → List Nat,
      (∀ i < B, (idx i).length = data.length ∧
        ∀ j ∈ idx i, j < data.length) ∧
      (∀ i < B, resampleAt data (idx i) = choice i) ∧
      bootstrap data func B ci choice = bootstrapIndexRef data func B ci idx := by
  refine ⟨fun i => (choice i).map data.indexOf, ?_, ?_, ?_⟩
  · intro i hi
    constructor
    · rw [List.length_map]
      exact (hch i hi).1
    · intro j hj
      obtain ⟨v, hv, hj'⟩ := List.mem_map.mp hj
      rw [← hj']
      exact List.indexOf_lt_length.mpr ((hch i hi).2 v hv)
  · intro i hi
    exact resampleAt_map_indexOf data (choice i) (hch i hi).2
  · have hreps : ((List.range B).map fun i => func (choice i)) =
        (List.range B).map fun i =>
          func (resampleAt data ((choice i).map data.indexOf)) := by
      apply List.map_congr_left
      intro i hi
      have hi' : i < B := List.mem_range.mp hi
      rw [resampleAt_map_indexOf data (choice i) (hch i hi').2]
    simp only [bootstrap, bootstrapIndexRef, hreps]

/-- Witness for the claim C6 theorem at concrete inputs. -/
theorem bootstrap_value_draw_refines_index_draw_witness :
    (∀ i < 1, (([2, 1] : List ℚ)).length = ([1, 2] : List ℚ).length ∧
      ∀ x ∈ ([2, 1] : List ℚ), x ∈ ([1, 2] : List ℚ)) ∧
    (∃ idx : Nat → List Nat,
      (∀ i < 1, (idx i).length = ([1, 2] : List ℚ).length ∧
        ∀ j ∈ idx i, j < ([1, 2] : List ℚ).length) ∧
      (∀ i < 1, resampleAt [1, 2] (idx i) = [2, 1]) ∧
      bootstrap [1, 2] (fun l => l.headD 0) 1 95 (fun _ => [2, 1]) =
        bootstrapIndexRef [1, 2] (fun l => l.headD 0) 1 95 idx) :=
  ⟨fun _ _ => ⟨rfl, by
      show ∀ x ∈ ([2, 1] : List ℚ), x ∈ ([1, 2] : List ℚ)
      decide⟩,
    bootstrap_value_draw_refines_index_draw [1, 2] (fun l => l.headD 0) 1 95
      (fun _ => [2, 1])
      (fun _ _ => ⟨rfl, by
        show ∀ x ∈ ([2, 1] : List ℚ), x ∈ ([1, 2] : List ℚ)
        decide⟩)⟩

/-- Claim C7: for every call to one of the four resampling operations with
a confidence level outside `{95, 99}`, the call fails synchronously: it
returns the `UnboundLocalError` for the never-assigned local variable
`percentiles`, no interval (indeed no value at all) is returned, and
nothing is retried or recovered internally. -/
theorem unsupported_ci_unbound_local
    (data d1 d2 q1 q2 : List ℚ) (f1 : List ℚ → ℚ)
    (f2 f3 f4 : List ℚ → List ℚ → ℚ × ℚ)
    (B : Nat) (ci : ℤ) (choiceV : Nat → List ℚ) (choice : Nat → List Nat)
    (shuffle : Nat → List ℚ → List ℚ)
    (hci95 : ci ≠ 95) (hci99 : ci ≠ 99)
    (hlen : d2.length = d1.length) (hch : validChoice d1.length choice B) :
    bootstrap data f1 B ci choiceV = .error (.unboundLocal "percentiles") ∧
    bootstrap_pairs d1 d2 f2 B ci choice =
      .error (.unboundLocal "percentiles") ∧
    boostrap_pairs_lin_reg d1 d2 f3 B ci choice =
      .error (.unboundLocal "percentiles") ∧
    draw_perm_reps_spearman q1 q2 f4 B ci shuffle =
      .error (.unboundLocal "percentiles") := by
  have hnone : ciPercentiles ci = none := by
    unfold ciPercentiles
    rw [if_neg hci95, if_neg hci99]
  have h1 : ∀ i < B, ∀ j ∈ choice i, j < d1.length := fun i hi => (hch i hi).2
  have h2 : ∀ i < B, ∀ j ∈ choice i, j < d2.length := by
    intro i hi j hj
    rw [hlen]
    exact (hch i hi).2 j hj
  refine ⟨?_, ?_, ?_, ?_⟩
  · simp only [bootstrap, hnone]
  · simp only [bootstrap_pairs, pairs_loop_fst_ok d1 d2 f2 B choice h1 h2,
      ok_bind, hnone]
  · simp only [boostrap_pairs_lin_reg, pairs_loop_ok d1 d2 f3 B choice h1 h2,
      ok_bind, hnone]
  · simp only [draw_perm_reps_spearman, hnone]

/-- Witness for the claim C7 theorem at concrete inputs. -/
theorem unsupported_ci_unbound_local_witness :
    (42 : ℤ) ≠ 95 ∧ (42 : ℤ) ≠ 99 ∧
    ([2] : List ℚ).length = ([1] : List ℚ).length ∧
    validChoice ([1] : List ℚ).length (fun _ => [0]) 1 ∧
    (bootstrap [1] (fun _ => 0) 1 42 (fun _ => [1]) =
      .error (.unboundLocal "percentiles") ∧
    bootstrap_pairs [1] [2] (fun _ _ => (0, 0)) 1 42 (fun _ => [0]) =
      .error (.unboundLocal "percentiles") ∧
    boostrap_pairs_lin_reg [1] [2] (fun _ _ => (0, 0)) 1 42 (fun _ => [0]) =
      .error (.unboundLocal "percentiles") ∧
    draw_perm_reps_spearman [1] [2] (fun _ _ => (0, 0)) 1 42 (fun _ l => l) =
      .error (.unboundLocal "percentiles")) :=
  ⟨by decide, by decide, rfl,
    fun _ _ => ⟨rfl, by
      show ∀ j ∈ ([0] : List Nat), j < ([1] : List ℚ).length
      decide⟩,
    unsupported_ci_unbound_local [1] [1] [2] [1] [2] (fun _ => 0)
      (fun _ _ => (0, 0)) (fun _ _ => (0, 0)) (fun _ _ => (0, 0)) 1 42
      (fun _ => [1]) (fun _ => [0]) (fun _ l => l)
      (by decide) (by decide) rfl
      (fun _ _ => ⟨rfl, by
        show ∀ j ∈ ([0] : List Nat), j < ([1] : List ℚ).length
        decide⟩)⟩

/-- Claim C10: for every call to `bootstrap_pairs` or
`boostrap_pairs_lin_reg` in which `data_2` is at least as long as the
non-empty `data_1` (including strictly longer, mismatched lengths), every
positional access is in bounds — all indices come from `[0, len(data_1))`
and are applied to both samples — so the call completes without any
indexing error, and elements of `data_2` at positions at or beyond
`len(data_1)` are never selected into any resample. -/
theorem longer_second_sample_in_bounds
    (d1 d2 : List ℚ) (f g : List ℚ → List ℚ → ℚ × ℚ) (B : Nat) (ci : ℤ)
    (choice : Nat → List Nat)
    (hne : d1 ≠ []) (hlen : d1.length ≤ d2.length)
    (hch : validChoice d1.length choice B)
    (hB : 1 ≤ B) (hci : ci = 95 ∨ ci = 99) :
    (∀ i < B, iloc d1 (choice i) = .ok (resampleAt d1 (choice i)) ∧
      iloc d2 (choice i) =
        .ok (resampleAt (d2.take d1.length) (choice i))) ∧
    (∃ r, bootstrap_pairs d1 d2 f B ci choice = .ok r) ∧
    (∃ r, boostrap_pairs_lin_reg d1 d2 g B ci choice = .ok r) := by
  obtain ⟨ps, hps⟩ : ∃ ps, ciPercentiles ci = some ps := by
    rcases hci with h | h <;> subst h <;> exact ⟨_, rfl⟩
  have h1 : ∀ i < B, ∀ j ∈ choice i, j < d1.length := fun i hi => (hch i hi).2
  have h2 : ∀ i < B, ∀ j ∈ choice i, j < d2.length := by
    intro i hi j hj
    exact lt_of_lt_of_le ((hch i hi).2 j hj) hlen
  refine ⟨?_, ⟨_, bootstrap_pairs_eq_ok d1 d2 f B ci choice ps hB hps h1 h2⟩,
    ⟨_, lin_reg_eq_ok d1 d2 g B ci choice ps hB hps h1 h2⟩⟩
  intro i hi
  refine ⟨iloc_ok d1 (choice i) (h1 i hi), ?_⟩
  rw [iloc_ok d2 (choice i) (h2 i hi)]
  unfold resampleAt
  congr 1
  apply List.map_congr_left
  intro j hj
  have hjlt : j < d1.length := (hch i hi).2 j hj
  rw [List.getD_eq_get?, List.getD_eq_get?, List.get?_take hjlt]

/-- Witness for the claim C10 theorem at concrete inputs: `data_2` is
strictly longer than `data_1` and the calls still complete. -/
theorem longer_second_sample_in_bounds_witness :
    ([1] : List ℚ) ≠ [] ∧ ([1] : List ℚ).length ≤ ([2, 3] : List ℚ).length ∧
    validChoice ([1] : List ℚ).length (fun _ => [0]) 1 ∧
    1 ≤ 1 ∧ ((95 : ℤ) = 95 ∨ (95 : ℤ) = 99) ∧
    ((∀ i < 1, iloc [1] [0] = .ok (resampleAt [1] [0]) ∧
      iloc [2, 3] [0] =
        .ok (resampleAt (([2, 3] : List ℚ).take ([1] : List ℚ).length) [0])) ∧
    (∃ r, bootstrap_pairs [1] [2, 3] (fun _ _ => (0, 0)) 1 95 (fun _ => [0]) =
      .ok r) ∧
    (∃ r, boostrap_pairs_lin_reg [1] [2, 3] (fun _ _ => (0, 0)) 1 95
      (fun _ => [0]) = .ok r)) :=
  ⟨List.cons_ne_nil _ _, by decide,
    fun _ _ => ⟨rfl, by
      show ∀ j ∈ ([0] : List Nat), j < ([1] : List ℚ).length
      decide⟩,
    le_refl 1, Or.inl rfl,
    longer_second_sample_in_bounds [1] [2, 3] (fun _ _ => (0, 0))
      (fun _ _ => (0, 0)) 1 95 (fun _ => [0])
      (List.cons_ne_nil _ _) (by decide)
      (fun _ _ => ⟨rfl, by
        show ∀ j ∈ ([0] : List Nat), j < ([1] : List ℚ).length
        decide⟩)
      (le_refl 1) (Or.inl rfl)⟩

lemma quantileLinear_singleton (x q : ℚ) : quantileLinear [x] q = x := by
  simp only [quantileLinear, List.length_singleton]
  norm_num

/-- Claim C8 is refuted by the code: no length check exists in
`bootstrap_pairs` (nor in `boostrap_pairs_lin_reg`), so with mismatched
lengths `data_1 = [1, 2]` and `data_2 = [3, 4, 5]` the call does not raise
any error before (or during) resampling — it completes normally and
returns a full replicate collection with an interval, contradicting the
required fail-fast `InvalidInput`. -/
theorem mismatched_lengths_not_rejected :
    ([1, 2] : List ℚ).length ≠ ([3, 4, 5] : List ℚ).length ∧
    bootstrap_pairs [1, 2] [3, 4, 5] (fun _ _ => (0, 0)) 1 95
      (fun _ => [0, 1]) = .ok ([0], [0, 0]) ∧
    boostrap_pairs_lin_reg [1, 2] [3, 4, 5] (fun _ _ => (0, 0)) 1 95
      (fun _ => [0, 1]) = .ok ([0], [0], [0, 0]) := by
  have h1 : ∀ i < 1, ∀ j ∈ (fun (_ : Nat) => [0, 1]) i,
      j < ([1, 2] : List ℚ).length := fun _ _ => by
    show ∀ j ∈ ([0, 1] : List Nat), j < ([1, 2] : List ℚ).length
    decide
  have h2 : ∀ i < 1, ∀ j ∈ (fun (_ : Nat) => [0, 1]) i,
      j < ([3, 4, 5] : List ℚ).length := fun _ _ => by
    show ∀ j ∈ ([0, 1] : List Nat), j < ([3, 4, 5] : List ℚ).length
    decide
  refine ⟨by decide, ?_, ?_⟩
  · rw [bootstrap_pairs_eq_ok [1, 2] [3, 4, 5] (fun _ _ => (0, 0)) 1 95
      (fun _ => [0, 1]) [2.5, 97.5] (le_refl 1) rfl h1 h2]
    simp [pairRep, List.insertionSort, List.orderedInsert,
      quantileLinear_singleton]
  · rw [lin_reg_eq_ok [1, 2] [3, 4, 5] (fun _ _ => (0, 0)) 1 95
      (fun _ => [0, 1]) [2.5, 97.5] (le_refl 1) rfl h1 h2]
    simp [pairRep, List.insertionSort, List.orderedInsert,
      quantileLinear_singleton]

/-- Claim C9 is refuted by the code: none of the four operations validates
the iteration count.`iterations = 0` is silently accepted, the loop runs
zero times, and the call then fails with the `IndexError` that
`np.percentile` raises on the empty replicate array — an incidental
library failure after the (empty) resampling phase, not a rejection of the
invalid configuration. -/
theorem zero_iterations_not_rejected :
    bootstrap [1, 2, 3] (fun l => l.headD 0) 0 95 (fun _ => []) =
      .error .indexError ∧
    bootstrap_pairs [1] [2] (fun _ _ => (0, 0)) 0 95 (fun _ => [0]) =
      .error .indexError ∧
    boostrap_pairs_lin_reg [1] [2] (fun _ _ => (0, 0)) 0 95 (fun _ => [0]) =
      .error .indexError ∧
    draw_perm_reps_spearman [1] [2] (fun _ _ => (0, 0)) 0 95 (fun _ l => l) =
      .error .indexError :=
  ⟨rfl, rfl, rfl, rfl⟩
